import Mathlib

/-!
Verification model of the theseus install/launch core.

Shallow embedding of:
- src/theseus/src/api/pack/install_mrpack.rs
  (install_zipped_mrpack, install_zipped_mrpack_files, remove_all_related_files)
- src/theseus/src/launcher/mod.rs
  (install_minecraft, launch_minecraft, options.txt merge)

Strings are modelled as lists of characters (Str).  External collaborators
(manifest JSON decoding, the mirrored fetcher, the profile store, the loading
bar, java discovery, artifact download, child-process execution) are passed in
as oracle parameters; the control flow, ordering and error propagation around
them are translated from the source.
-/

namespace Theseus

abbrev Str := List Char

/-! ## Path components, following Rust std::path::Path::components -/

inductive PathComponent
  | rootDir
  | curDir
  | parentDir
  | normal (seg : Str)
deriving DecidableEq

/-- Split a character list at every occurrence of `c` (like str::split). -/
def splitOnChar (c : Char) : Str → List Str
  | [] => [[]]
  | x :: xs =>
    if x = c then [] :: splitOnChar c xs
    else
      match splitOnChar c xs with
      | [] => [[x]]
      | h :: t => (x :: h) :: t

/-- Classification of a non-leading path segment: empty segments and `.` are
dropped, `..` is a parent-directory component, all else is a normal segment
(Rust components() normalization). -/
def classifyTailSeg (seg : Str) : Option PathComponent :=
  if seg = [] then none
  else if seg = ['.'] then none
  else if seg = ['.', '.'] then some PathComponent.parentDir
  else some (PathComponent.normal seg)

/-- Rust Path::components for a Unix path: a leading empty segment denotes the
root, a leading `.` is kept as CurDir, later `.`/empty segments are dropped. -/
def pathComponents (s : Str) : List PathComponent :=
  match s with
  | [] => []
  | _ :: _ =>
    match splitOnChar '/' s with
    | [] => []
    | first :: rest =>
      (if first = [] then PathComponent.rootDir
       else if first = ['.'] then PathComponent.curDir
       else if first = ['.', '.'] then PathComponent.parentDir
       else PathComponent.normal first) :: rest.filterMap classifyTailSeg

/-- Path::components().next() -/
def firstComponent (s : Str) : Option PathComponent :=
  (pathComponents s).head?

def renderSeg : PathComponent → Option Str
  | PathComponent.rootDir => none
  | PathComponent.curDir => none
  | PathComponent.parentDir => some ['.', '.']
  | PathComponent.normal seg => some seg

/-- The filesystem segments a component list denotes when pushed onto a
PathBuf (CurDir/RootDir contribute no segment). -/
def renderSegs (cs : List PathComponent) : List Str :=
  cs.filterMap renderSeg

/-- Rust Path::file_name: the final component when it is a normal segment. -/
def fileNameOf (cs : List PathComponent) : Option Str :=
  match cs.getLast? with
  | some (PathComponent.normal seg) => some seg
  | _ => none

/-- Rust PathBuf::join: an absolute right-hand side replaces the base path. -/
def joinPath (root : List Str) (s : Str) : List Str :=
  match (pathComponents s).head? with
  | some PathComponent.rootDir => renderSegs (pathComponents s)
  | _ => root ++ renderSegs (pathComponents s)

/-! ## Pack data model (pack/install_from.rs subset used by install_mrpack.rs) -/

inductive SideType
  | required
  | optional
  | unsupported
deriving DecidableEq

inductive EnvType
  | client
  | server
deriving DecidableEq

inductive PackFileHash
  | sha1
  | sha512
deriving DecidableEq

structure PackFile where
  path : Str
  hashes : List (PackFileHash × Str)
  env : Option (List (EnvType × SideType))
  downloads : List Str
deriving DecidableEq

structure PackFormat where
  game : Str
  name : Str
  files : List PackFile
deriving DecidableEq

structure ZipEntry where
  filename : Str
  content : Str
deriving DecidableEq

inductive PackError
  | inputError (msg : Str)
  | schemaError
  | fetchError
  | ioError
deriving DecidableEq

def lookupEnv : List (EnvType × SideType) → EnvType → Option SideType
  | [], _ => none
  | (k, v) :: t, a => if k = a then some v else lookupEnv t a

def lookupHash : List (PackFileHash × Str) → PackFileHash → Option Str
  | [], _ => none
  | (k, v) :: t, a => if k = a then some v else lookupHash t a

/-- install_mrpack.rs:161-169 — env.get(Client).map(|x| x == Unsupported).unwrap_or(false). -/
def clientUnsupported (f : PackFile) : Bool :=
  match f.env with
  | none => false
  | some env =>
    match lookupEnv env EnvType.client with
    | none => false
    | some SideType.unsupported => true
    | some _ => false

def sha1Of (f : PackFile) : Option Str :=
  lookupHash f.hashes PackFileHash.sha1

structure FetchCall where
  urls : List Str
  sha1 : Option Str
deriving DecidableEq

structure ItemTrace where
  fetches : List FetchCall
  writes : List (List Str × Str)
deriving DecidableEq

/-- install_mrpack.rs:157-201 — the per-pack-file closure run by the bounded
concurrent pipeline: skip unsupported client entries, fetch from mirrors,
then write only when the path's first component is CurDir or Normal. -/
def install_pack_file_item (fetch : List Str → Option Str → Except PackError Str)
    (root : List Str) (f : PackFile) : ItemTrace × Option PackError :=
  if clientUnsupported f then (⟨[], []⟩, none)
  else
    match fetch f.downloads (sha1Of f) with
    | Except.error e => (⟨[⟨f.downloads, sha1Of f⟩], []⟩, some e)
    | Except.ok bytes =>
      match firstComponent f.path with
      | some PathComponent.curDir =>
        (⟨[⟨f.downloads, sha1Of f⟩], [(joinPath root f.path, bytes)]⟩, none)
      | some (PathComponent.normal _) =>
        (⟨[⟨f.downloads, sha1Of f⟩], [(joinPath root f.path, bytes)]⟩, none)
      | _ => (⟨[⟨f.downloads, sha1Of f⟩], []⟩, none)

/-- install_mrpack.rs:149-204 — loading_try_for_each_concurrent over the pack
files, stopping at the first error. -/
def processPackFiles (fetch : List Str → Option Str → Except PackError Str)
    (root : List Str) : List PackFile → ItemTrace × Option PackError
  | [] => (⟨[], []⟩, none)
  | f :: rest =>
    match install_pack_file_item fetch root f with
    | (tr, some e) => (tr, some e)
    | (tr, none) =>
      match processPackFiles fetch root rest with
      | (tr2, err) => (⟨tr.fetches ++ tr2.fetches, tr.writes ++ tr2.writes⟩, err)

def endsWithChar (c : Char) (s : Str) : Bool :=
  match s.getLast? with
  | some d => d == c
  | none => false

/-- install_mrpack.rs:231-234 / 379-382 — an entry is processed as an override
iff its full name starts with the string "overrides" or "client_overrides"
and does not end with a slash. -/
def isOverrideName (name : Str) : Bool :=
  (("overrides".data).isPrefixOf name || ("client_overrides".data).isPrefixOf name)
    && !(endsWithChar '/' name)

/-- install_mrpack.rs:240-245 — file_path.components().skip(1) pushed into a
fresh PathBuf. -/
def strippedOverridePath (name : Str) : List PathComponent :=
  (pathComponents name).drop 1

/-- install_mrpack.rs:230-254 — the write performed for one archive entry
during override extraction, when any. -/
def overrideInstallAction (root : List Str) (e : ZipEntry) : Option (List Str × Str) :=
  if isOverrideName e.filename then
    match fileNameOf (strippedOverridePath e.filename) with
    | some _ => some (root ++ renderSegs (strippedOverridePath e.filename), e.content)
    | none => none
  else none

/-- install_mrpack.rs:221-266 — the override extraction pass over all entries. -/
def processOverrides (root : List Str) (zip : List ZipEntry) : List (List Str × Str) :=
  zip.filterMap (overrideInstallAction root)

/-- install_mrpack.rs:208-219 — total_len, the number of entries classified as
overrides. -/
def overrideCount (zip : List ZipEntry) : Nat :=
  (zip.filter (fun e => isOverrideName e.filename)).length

def manifestEntryName : Str := "modrinth.index.json".data

/-- install_mrpack.rs:97-101 — position of the entry named modrinth.index.json. -/
def findManifest (zip : List ZipEntry) : Option ZipEntry :=
  zip.find? (fun e => e.filename == manifestEntryName)

structure InstallEffects where
  fetches : List FetchCall
  writes : List (List Str × Str)
  deletes : List (List Str)
  profileRemoved : Bool
deriving DecidableEq

def noPackManifestMsg : Str := "No pack manifest found in mrpack".data

def unsupportedGameMsg : Str := "Pack does not support Minecraft".data

def minecraftStr : Str := "minecraft".data

/-- install_mrpack.rs:73-291 — install_zipped_mrpack_files.  parse stands for
serde_json manifest decoding, fetch for fetch_mirrors, setProfileInfo /
initBar / installMc for the fallible external steps in source order. -/
def install_zipped_mrpack_files
    (parse : Str → Except PackError PackFormat)
    (fetch : List Str → Option Str → Except PackError Str)
    (setProfileInfo : Option PackError)
    (initBar : Option PackError)
    (installMc : Option PackError)
    (root : List Str) (zip : List ZipEntry) : InstallEffects × Option PackError :=
  match findManifest zip with
  | none => (⟨[], [], [], false⟩, some (PackError.inputError noPackManifestMsg))
  | some entry =>
    match parse entry.content with
    | Except.error e => (⟨[], [], [], false⟩, some e)
    | Except.ok pack =>
      if pack.game ≠ minecraftStr then
        (⟨[], [], [], false⟩, some (PackError.inputError unsupportedGameMsg))
      else
        match setProfileInfo with
        | some e => (⟨[], [], [], false⟩, some e)
        | none =>
          match initBar with
          | some e => (⟨[], [], [], false⟩, some e)
          | none =>
            match processPackFiles fetch root pack.files with
            | (tr, some e) => (⟨tr.fetches, tr.writes, [], false⟩, some e)
            | (tr, none) =>
              match installMc with
              | some e =>
                (⟨tr.fetches, tr.writes ++ processOverrides root zip, [], false⟩, some e)
              | none =>
                (⟨tr.fetches, tr.writes ++ processOverrides root zip, [], false⟩, none)

/-- install_mrpack.rs:28-68 — install_zipped_mrpack: generate the pack
description, run install_zipped_mrpack_files, and on error remove the
partially-created profile (the caller-side fail-safe). -/
def install_zipped_mrpack
    (genPack : Option PackError)
    (parse : Str → Except PackError PackFormat)
    (fetch : List Str → Option Str → Except PackError Str)
    (setProfileInfo : Option PackError)
    (initBar : Option PackError)
    (installMc : Option PackError)
    (root : List Str) (zip : List ZipEntry) : InstallEffects × Option PackError :=
  match genPack with
  | some e => (⟨[], [], [], false⟩, some e)
  | none =>
    match install_zipped_mrpack_files parse fetch setProfileInfo initBar installMc root zip with
    | (eff, some e) => ({ eff with profileRemoved := true }, some e)
    | (eff, none) => (eff, none)

/-! ## Removal (remove_all_related_files), over a filesystem modelled as the
list of existing regular files (directories exist implicitly as strict
prefixes of files). -/

abbrev FsPath := List Str

/-- A path is a directory that exists: some regular file lies strictly
beneath it. -/
def dirLike (fs : List FsPath) (t : FsPath) : Bool :=
  fs.any (fun q => t.isPrefixOf q && !(t == q))

/-- Path::exists: a regular file, or a directory that still contains one. -/
def pathExistsB (fs : List FsPath) (t : FsPath) : Bool :=
  decide (t ∈ fs) || dirLike fs t

def eraseFile (t : FsPath) : List FsPath → List FsPath
  | [] => []
  | p :: ps => if p = t then ps else p :: eraseFile t ps

/-- io::remove_file: succeeds on an existing regular file, errors otherwise
(in particular on a directory). -/
def removeFileOp (fs : List FsPath) (t : FsPath) : Except PackError (List FsPath) :=
  if t ∈ fs then Except.ok (eraseFile t fs) else Except.error PackError.ioError

/-- install_mrpack.rs:355-360 / 390-395 — if existing_file.exists() then
io::remove_file(existing_file)?. -/
def removeIfExists (fs : List FsPath) (t : FsPath) : List FsPath × Option PackError :=
  if pathExistsB fs t then
    match removeFileOp fs t with
    | Except.ok fs' => (fs', none)
    | Except.error e => (fs, some e)
  else (fs, none)

def removeTargetsFold (fs : List FsPath) : List FsPath → List FsPath × Option PackError
  | [] => (fs, none)
  | t :: ts =>
    match removeIfExists fs t with
    | (fs', some e) => (fs', some e)
    | (fs', none) => removeTargetsFold fs' ts

/-- install_mrpack.rs:379-392 — the deletion target of one archive entry in
the override removal loop, when the entry is classified as an override. -/
def overrideRemoveTarget (root : List Str) (e : ZipEntry) : Option FsPath :=
  if isOverrideName e.filename then
    some (root ++ renderSegs (strippedOverridePath e.filename))
  else none

/-- install_mrpack.rs:295-404 — remove_all_related_files.  Returns the final
filesystem, the error if any, and whether the stage was set to
PackInstalling. -/
def remove_all_related_files
    (parse : Str → Except PackError PackFormat)
    (root : List Str) (zip : List ZipEntry) (fs : List FsPath)
    : List FsPath × Option PackError × Bool :=
  match findManifest zip with
  | none => (fs, some (PackError.inputError noPackManifestMsg), false)
  | some entry =>
    match parse entry.content with
    | Except.error e => (fs, some e, false)
    | Except.ok pack =>
      if pack.game ≠ minecraftStr then
        (fs, some (PackError.inputError unsupportedGameMsg), false)
      else
        match removeTargetsFold fs (pack.files.map (fun f => joinPath root f.path)) with
        | (fs1, some e) => (fs1, some e, true)
        | (fs1, none) =>
          match removeTargetsFold fs1 (zip.filterMap (overrideRemoveTarget root)) with
          | (fs2, err2) => (fs2, err2, true)

/-! ## Launch orchestrator (launcher/mod.rs), with external collaborators as
oracles: loading bar, metadata lookup, version-info download, java
resolution, artifact download, processor main-class lookup and child-process
execution. -/

inductive ProfileInstallStage
  | notInstalled
  | installing
  | packInstalling
  | installed
deriving DecidableEq

inductive LaunchError
  | launcherError (msg : Str)
  | otherError (msg : Str)
deriving DecidableEq

structure Processor where
  sides : Option (List Str)
  jar : Str
deriving DecidableEq

structure ProcOutput where
  success : Bool
  stderr : Str
deriving DecidableEq

structure VersionInfo where
  processors : Option (List Processor)
  data : Option (List (Str × Str))
deriving DecidableEq

structure McOracles where
  initBar : Option LaunchError
  versionFound : Bool
  versionInfo : Except LaunchError VersionInfo
  javaVersion : Option Str
  jreCheck : Option Str
  downloadMc : Option LaunchError
  mainClass : Nat → Option Str
  exec : Nat → Except Str ProcOutput
  finalSync : Option LaunchError

def invalidVersionMsg (v : Str) : Str := "Invalid game version: ".data ++ v

def missingJavaMsg : Str := "Missing correct java installation".data

def invalidJavaPathMsg (p : Str) : Str := "Java path invalid or non-functional: ".data ++ p

def mainClassMsg (jar : Str) : Str := "Could not find processor main class for ".data ++ jar

def runProcessorMsg (e : Str) : Str := "Error running processor: ".data ++ e

def processorErrorMsg (stderr : Str) : Str := "Processor error: ".data ++ stderr

def stillInstallingMsg : Str := "Profile is still installing".data

def alreadyRunningMsg (pid uuid : Str) : Str :=
  "Profile ".data ++ pid ++ " is already running at UUID: ".data ++ uuid

def clientSideStr : Str := "client".data

/-- launcher/mod.rs:221-225 — a processor with a declared side list is skipped
unless the list contains "client". -/
def sidesAllow (p : Processor) : Bool :=
  match p.sides with
  | none => true
  | some l => l.contains clientSideStr

/-- launcher/mod.rs:220-283 — the enumerated processor loop: resolve the main
class, run the child process, abort on non-zero exit carrying stderr.
Returns the indices whose child process was started, in order. -/
def runProcessors (oc : McOracles) : List Processor → Nat → List Nat × Option LaunchError
  | [], _ => ([], none)
  | p :: rest, i =>
    if sidesAllow p then
      match oc.mainClass i with
      | none => ([], some (LaunchError.launcherError (mainClassMsg p.jar)))
      | some _ =>
        match oc.exec i with
        | Except.error e => ([i], some (LaunchError.launcherError (runProcessorMsg e)))
        | Except.ok out =>
          if out.success then
            let next := runProcessors oc rest (i + 1)
            (i :: next.1, next.2)
          else ([i], some (LaunchError.launcherError (processorErrorMsg out.stderr)))
    else runProcessors oc rest (i + 1)

/-- launcher/mod.rs:186-284 — the whole processor phase: processors run only
when the version info declares both a processor list and an interpolation
data map (the code guards the loop with `if let Some(data)`). -/
def processorsPhase (oc : McOracles) (vi : VersionInfo) : List Nat × Option LaunchError :=
  match vi.processors, vi.data with
  | some ps, some _ => runProcessors oc ps 0
  | _, _ => ([], none)

/-- launcher/mod.rs:102-297 — install_minecraft.  Returns the result, the
final install stage, and the indices of processors whose child process ran.
The stage is set to Installing right after the loading bar is created and to
Installed at the end; the trailing State::sync and final emit_loading
(mod.rs:293-294) are still fallible AFTER that final stage edit, which the
finalSync oracle models. -/
def install_minecraft (oc : McOracles) (gameVersion : Str) (s0 : ProfileInstallStage) :
    Except LaunchError Unit × ProfileInstallStage × List Nat :=
  match oc.initBar with
  | some e => (Except.error e, s0, [])
  | none =>
    if ¬ oc.versionFound then
      (Except.error (LaunchError.launcherError (invalidVersionMsg gameVersion)),
        ProfileInstallStage.installing, [])
    else
      match oc.versionInfo with
      | Except.error e => (Except.error e, ProfileInstallStage.installing, [])
      | Except.ok vi =>
        match oc.javaVersion with
        | none =>
          (Except.error (LaunchError.otherError missingJavaMsg),
            ProfileInstallStage.installing, [])
        | some jpath =>
          match oc.jreCheck with
          | none =>
            (Except.error (LaunchError.launcherError (invalidJavaPathMsg jpath)),
              ProfileInstallStage.installing, [])
          | some _ =>
            match oc.downloadMc with
            | some e => (Except.error e, ProfileInstallStage.installing, [])
            | none =>
              match processorsPhase oc vi with
              | (ex, some e) => (Except.error e, ProfileInstallStage.installing, ex)
              | (ex, none) =>
                match oc.finalSync with
                | some e => (Except.error e, ProfileInstallStage.installed, ex)
                | none => (Except.ok (), ProfileInstallStage.installed, ex)

/-! ## options.txt merge (launcher/mod.rs:455-480) -/

def intercalateChar (c : Char) : List Str → Str
  | [] => []
  | [l] => l
  | l :: ls => l ++ c :: intercalateChar c ls

/-- A line matched by the regex (?m)^key:.*$ is exactly a line starting with
key followed by a colon. -/
def lineMatchesKey (key line : Str) : Bool :=
  (key ++ [':']).isPrefixOf line

/-- launcher/mod.rs:466-478 — one (key, value) pair: if no line matches,
append "\nkey:value"; otherwise replace_all rewrites every matching line
with "key:value". -/
def merge_option (content : Str) (key value : Str) : Str :=
  let ls := splitOnChar '\n' content
  if ls.any (lineMatchesKey key) then
    intercalateChar '\n'
      (ls.map (fun l => if lineMatchesKey key l then key ++ ':' :: value else l))
  else content ++ '\n' :: (key ++ ':' :: value)

def merge_options (content : Str) : List (Str × Str) → Str
  | [] => content
  | (k, v) :: rest => merge_options (merge_option content k v) rest

/-! ## launch_minecraft (launcher/mod.rs:302-566) -/

structure LaunchOracles where
  mc : McOracles
  versionFound2 : Bool
  versionInfo2 : Except LaunchError VersionInfo
  java2 : Option Str
  jre2 : Option Str
  existingProcesses : List Str
  optionsContent : Option Str
  spawn : Except LaunchError Nat

inductive LaunchEvent
  | ranInstall
  | spawnedProcess
deriving DecidableEq

deriving instance DecidableEq for Except

structure LaunchResult where
  result : Except LaunchError Nat
  stage : ProfileInstallStage
  events : List LaunchEvent
  optionsWritten : Option Str
deriving DecidableEq

/-- launcher/mod.rs:326-566 — everything after the install-stage gate: version
and java resolution, the process-registry exclusivity check, the options.txt
merge, and finally insert_process (which spawns and registers). -/
def launch_phase2 (oc : LaunchOracles) (profileId gameVersion : Str)
    (mcSetOptions : List (Str × Str)) (stage1 : ProfileInstallStage)
    (events1 : List LaunchEvent) : LaunchResult :=
  if ¬ oc.versionFound2 then
    ⟨Except.error (LaunchError.launcherError (invalidVersionMsg gameVersion)), stage1, events1, none⟩
  else
    match oc.versionInfo2 with
    | Except.error e => ⟨Except.error e, stage1, events1, none⟩
    | Except.ok _ =>
      match oc.java2 with
      | none =>
        ⟨Except.error (LaunchError.launcherError missingJavaMsg), stage1, events1, none⟩
      | some jpath =>
        match oc.jre2 with
        | none =>
          ⟨Except.error (LaunchError.launcherError (invalidJavaPathMsg jpath)), stage1, events1, none⟩
        | some _ =>
          match oc.existingProcesses with
          | uuid :: _ =>
            ⟨Except.error (LaunchError.launcherError (alreadyRunningMsg profileId uuid)),
              stage1, events1, none⟩
          | [] =>
            let content := match oc.optionsContent with | none => [] | some s => s
            let written := merge_options content mcSetOptions
            match oc.spawn with
            | Except.error e =>
              ⟨Except.error e, stage1, events1 ++ [LaunchEvent.spawnedProcess], some written⟩
            | Except.ok h =>
              ⟨Except.ok h, stage1, events1 ++ [LaunchEvent.spawnedProcess], some written⟩

/-- launcher/mod.rs:302-566 — launch_minecraft: refuse while (pack)installing,
install first when not Installed, then proceed to phase 2. -/
def launch_minecraft (oc : LaunchOracles) (profileId gameVersion : Str)
    (mcSetOptions : List (Str × Str)) (s0 : ProfileInstallStage) : LaunchResult :=
  if s0 = ProfileInstallStage.packInstalling ∨ s0 = ProfileInstallStage.installing then
    ⟨Except.error (LaunchError.launcherError stillInstallingMsg), s0, [], none⟩
  else if s0 ≠ ProfileInstallStage.installed then
    match install_minecraft oc.mc gameVersion s0 with
    | (Except.error e, st, _) => ⟨Except.error e, st, [LaunchEvent.ranInstall], none⟩
    | (Except.ok _, st, _) =>
      launch_phase2 oc profileId gameVersion mcSetOptions st [LaunchEvent.ranInstall]
  else launch_phase2 oc profileId gameVersion mcSetOptions s0 []

/-! ## Helper lemmas about path parsing -/

theorem splitOnChar_ne_nil (c : Char) (s : Str) : splitOnChar c s ≠ [] := by
  cases s with
  | nil => simp [splitOnChar]
  | cons x xs =>
    unfold splitOnChar
    by_cases hx : x = c
    · simp [hx]
    · simp only [hx, if_false]
      cases splitOnChar c xs with
      | nil => simp
      | cons h t => simp

theorem splitOnChar_cons_ne (c x : Char) (xs : Str) (hx : ¬ x = c) :
    ∃ h t, splitOnChar c (x :: xs) = (x :: h) :: t := by
  unfold splitOnChar
  simp only [hx, if_false]
  cases splitOnChar c xs with
  | nil => exact ⟨[], [], rfl⟩
  | cons h t => exact ⟨h, t, rfl⟩

theorem firstComponent_normal_of_head (x : Char) (xs : Str) (h1 : ¬ x = '/')
    (h2 : ¬ x = '.') : ∃ seg, firstComponent (x :: xs) = some (PathComponent.normal seg) := by
  obtain ⟨h, t, hsp⟩ := splitOnChar_cons_ne '/' x xs h1
  refine ⟨x :: h, ?_⟩
  unfold firstComponent pathComponents
  rw [hsp]
  have e1 : ¬ (x :: h = ([] : Str)) := by simp
  have e2 : ¬ (x :: h = ['.']) := by simp [h2]
  have e3 : ¬ (x :: h = ['.', '.']) := by simp [h2]
  simp [e1, e2, e3]

theorem isPrefixOf_cons_ex {c : Char} {t name : Str}
    (h : List.isPrefixOf (c :: t) name = true) : ∃ r, name = c :: r := by
  cases name with
  | nil => simp [List.isPrefixOf] at h
  | cons b bs =>
    simp only [List.isPrefixOf, Bool.and_eq_true, beq_iff_eq] at h
    exact ⟨bs, by rw [h.1]⟩

/-- An entry classified as an override (name starting with "overrides" or
"client_overrides") always has a Normal first path component. -/
theorem override_firstComponent_normal (name : Str) (h : isOverrideName name = true) :
    ∃ seg, firstComponent name = some (PathComponent.normal seg) := by
  unfold isOverrideName at h
  simp only [Bool.and_eq_true, Bool.or_eq_true] at h
  rcases h.1 with hp | hp
  · have hp' : List.isPrefixOf ('o' :: "verrides".data) name = true := hp
    obtain ⟨r, hr⟩ := isPrefixOf_cons_ex hp'
    rw [hr]
    exact firstComponent_normal_of_head 'o' r (by decide) (by decide)
  · have hp' : List.isPrefixOf ('c' :: "lient_overrides".data) name = true := hp
    obtain ⟨r, hr⟩ := isPrefixOf_cons_ex hp'
    rw [hr]
    exact firstComponent_normal_of_head 'c' r (by decide) (by decide)

theorem not_mem_of_mem_splitOnChar (c : Char) (s : Str) :
    ∀ l ∈ splitOnChar c s, ¬ c ∈ l := by
  induction s with
  | nil =>
    intro l hl
    simp [splitOnChar] at hl
    simp [hl]
  | cons x xs ih =>
    intro l hl
    unfold splitOnChar at hl
    by_cases hx : x = c
    · rw [if_pos hx] at hl
      rcases List.mem_cons.mp hl with h1 | h1
      · simp [h1]
      · exact ih l h1
    · rw [if_neg hx] at hl
      cases hr : splitOnChar c xs with
      | nil => exact absurd hr (splitOnChar_ne_nil c xs)
      | cons h t =>
        rw [hr] at hl
        rcases List.mem_cons.mp hl with h1 | h1
        · subst h1
          intro hc
          rcases List.mem_cons.mp hc with h2 | h2
          · exact hx h2.symm
          · exact ih h (by rw [hr]; exact List.mem_cons_self h t) h2
        · exact ih l (by rw [hr]; exact List.mem_cons.mpr (Or.inr h1))

theorem splitOnChar_of_not_mem (c : Char) (l : Str) (h : ¬ c ∈ l) :
    splitOnChar c l = [l] := by
  induction l with
  | nil => rfl
  | cons x xs ih =>
    have hx : ¬ x = c := by
      intro e
      exact h (by simp [e])
    have h' : ¬ c ∈ xs := fun hc => h (List.mem_cons.mpr (Or.inr hc))
    unfold splitOnChar
    rw [if_neg hx, ih h']

theorem splitOnChar_append (c : Char) (l r : Str) (h : ¬ c ∈ l) :
    splitOnChar c (l ++ c :: r) = l :: splitOnChar c r := by
  induction l with
  | nil => simp [splitOnChar]
  | cons x xs ih =>
    have hx : ¬ x = c := by
      intro e
      exact h (by simp [e])
    have h' : ¬ c ∈ xs := fun hc => h (List.mem_cons.mpr (Or.inr hc))
    have hih := ih h'
    show splitOnChar c (x :: (xs ++ c :: r)) = (x :: xs) :: splitOnChar c r
    unfold splitOnChar
    rw [if_neg hx, hih]
    simp only [List.cons.injEq, true_and]
    cases r <;> rfl

theorem splitOnChar_intercalateChar (c : Char) :
    ∀ ls : List Str, ls ≠ [] → (∀ l ∈ ls, ¬ c ∈ l) →
      splitOnChar c (intercalateChar c ls) = ls
  | [], h, _ => absurd rfl h
  | [l], _, hl => by
    unfold intercalateChar
    exact splitOnChar_of_not_mem c l (hl l (by simp))
  | l :: l' :: ls, _, hl => by
    have ih := splitOnChar_intercalateChar c (l' :: ls) (by simp)
      (fun x hx => hl x (List.mem_cons.mpr (Or.inr hx)))
    show splitOnChar c (l ++ c :: intercalateChar c (l' :: ls)) = l :: l' :: ls
    rw [splitOnChar_append c l _ (hl l (by simp)), ih]

/-! ## Claim theorems -/

/-- C1: an archive entry (pack file or override alike) whose path has a
parent-directory-traversal first segment is never written: the pack-file item
records no write and, when the fetch succeeds, completes without error; and
the override pass performs no write for such an entry. -/
theorem c1_traversal_entries_never_written
    (f : PackFile) (e : ZipEntry)
    (fetch : List Str → Option Str → Except PackError Str) (root : List Str) (bytes : Str)
    (hf : firstComponent f.path = some PathComponent.parentDir)
    (he : firstComponent e.filename = some PathComponent.parentDir) :
    (install_pack_file_item fetch root f).1.writes = [] ∧
    (fetch f.downloads (sha1Of f) = Except.ok bytes →
      (install_pack_file_item fetch root f).2 = none) ∧
    overrideInstallAction root e = none := by
  refine ⟨?_, ?_, ?_⟩
  · unfold install_pack_file_item
    cases hfetch : fetch f.downloads (sha1Of f) with
    | error err =>
      by_cases hu : clientUnsupported f
      · simp [hu]
      · simp [hu]
    | ok b =>
      by_cases hu : clientUnsupported f
      · simp [hu]
      · rw [hf]; simp [hu]
  · intro hok
    unfold install_pack_file_item
    by_cases hu : clientUnsupported f
    · simp [hu]
    · rw [hok, hf]; simp [hu]
  · by_cases ho : isOverrideName e.filename
    · obtain ⟨seg, hseg⟩ := override_firstComponent_normal e.filename ho
      rw [he] at hseg
      exact absurd hseg (by simp)
    · unfold overrideInstallAction
      simp [ho]

/-- C1 witness: a concrete traversal pack file and traversal override entry. -/
theorem c1_witness :
    firstComponent "../evil.jar".data = some PathComponent.parentDir ∧
    (install_pack_file_item (fun _ _ => Except.ok "B".data) ["r".data]
        ⟨"../evil.jar".data, [], none, ["u".data]⟩).1.writes = [] ∧
    (install_pack_file_item (fun _ _ => Except.ok "B".data) ["r".data]
        ⟨"../evil.jar".data, [], none, ["u".data]⟩).2 = none ∧
    overrideInstallAction ["r".data] ⟨"../evil.txt".data, "x".data⟩ = none := by
  have h := c1_traversal_entries_never_written
    ⟨"../evil.jar".data, [], none, ["u".data]⟩ ⟨"../evil.txt".data, "x".data⟩
    (fun _ _ => Except.ok "B".data) ["r".data] "B".data (by decide) (by decide)
  exact ⟨by decide, h.1, h.2.1 rfl, h.2.2⟩

/-- C5: a pack file whose client-side requirement is Unsupported is skipped
entirely: no fetch call, no write, immediate success. -/
theorem c5_unsupported_client_skips_fetch (f : PackFile)
    (h : clientUnsupported f = true)
    (fetch : List Str → Option Str → Except PackError Str) (root : List Str) :
    install_pack_file_item fetch root f = (⟨[], []⟩, none) := by
  unfold install_pack_file_item
  simp [h]

/-- C5 witness: a concrete client-unsupported pack file, with a fetcher that
would fail if it were ever consulted. -/
theorem c5_witness :
    clientUnsupported ⟨"m.jar".data, [], some [(EnvType.client, SideType.unsupported)], []⟩ = true ∧
    install_pack_file_item (fun _ _ => Except.error PackError.fetchError) ["r".data]
        ⟨"m.jar".data, [], some [(EnvType.client, SideType.unsupported)], []⟩ = (⟨[], []⟩, none) :=
  ⟨by decide, c5_unsupported_client_skips_fetch _ (by decide) _ _⟩

/-- Restatement of the spec's words for comparison (refinement check only):
replace just the FIRST line matching key, else append. -/
def replaceFirstLine (key value : Str) : List Str → List Str
  | [] => []
  | l :: ls =>
    if lineMatchesKey key l then (key ++ ':' :: value) :: ls
    else l :: replaceFirstLine key value ls

/-- Restatement of the spec's words for comparison (refinement check only). -/
def merge_option_spec_first (content key value : Str) : Str :=
  let ls := splitOnChar '\n' content
  if ls.any (lineMatchesKey key) then intercalateChar '\n' (replaceFirstLine key value ls)
  else content ++ '\n' :: (key ++ ':' :: value)

/-- C4 counterexample: on a file with two fov lines, the code (replace_all)
rewrites both lines, while the claim prescribes replacing only the first. -/
theorem c4_counterexample :
    merge_option "fov:70\nfov:80".data "fov".data "100".data = "fov:100\nfov:100".data ∧
    merge_option_spec_first "fov:70\nfov:80".data "fov".data "100".data =
      "fov:100\nfov:80".data ∧
    merge_option "fov:70\nfov:80".data "fov".data "100".data ≠
      merge_option_spec_first "fov:70\nfov:80".data "fov".data "100".data := by
  refine ⟨by decide, by decide, by decide⟩

/-- C4 amended: for keys and values without a newline and without a dollar
sign (replace_all would expand dollar sequences in the replacement string),
the merge appends key:value when no line matches key, and otherwise rewrites
EVERY line matching key (not only the first); in particular a single line
fov:70 with override (fov,100) yields exactly the single line fov:100, and
with no fov line a new fov:100 line is appended. -/
theorem c4_merge_rewrites_every_matching_line (content key value : Str)
    (hk : ¬ '\n' ∈ key) (hv : ¬ '\n' ∈ value)
    (hkd : ¬ '$' ∈ key) (hvd : ¬ '$' ∈ value) :
    ((splitOnChar '\n' content).any (lineMatchesKey key) = false →
      merge_option content key value = content ++ '\n' :: (key ++ ':' :: value)) ∧
    ((splitOnChar '\n' content).any (lineMatchesKey key) = true →
      splitOnChar '\n' (merge_option content key value) =
        (splitOnChar '\n' content).map
          (fun l => if lineMatchesKey key l then key ++ ':' :: value else l)) ∧
    merge_option "fov:70".data "fov".data "100".data = "fov:100".data ∧
    merge_option "gamma:1".data "fov".data "100".data = "gamma:1\nfov:100".data := by
  refine ⟨?_, ?_, by decide, by decide⟩
  · intro hno
    unfold merge_option
    simp [hno]
  · intro hyes
    unfold merge_option
    simp only [hyes, if_true]
    apply splitOnChar_intercalateChar
    · intro hmap
      exact splitOnChar_ne_nil '\n' content (List.map_eq_nil_iff.mp hmap)
    · intro l hl
      obtain ⟨a, ha, rfl⟩ := List.mem_map.mp hl
      by_cases hm : lineMatchesKey key a
      · simp only [hm, if_true]
        intro hc
        rcases List.mem_append.mp hc with h1 | h1
        · exact hk h1
        · rcases List.mem_cons.mp h1 with h2 | h2
          · exact absurd h2 (by decide)
          · exact hv h2
      · simp only [hm, if_false]
        exact not_mem_of_mem_splitOnChar '\n' content a ha

/-- C4 witness for the amended theorem at concrete inputs. -/
theorem c4_witness :
    ¬ '\n' ∈ "fov".data ∧ ¬ '\n' ∈ "100".data ∧
    ((splitOnChar '\n' "fov:70".data).any (lineMatchesKey "fov".data) = true →
      splitOnChar '\n' (merge_option "fov:70".data "fov".data "100".data) =
        (splitOnChar '\n' "fov:70".data).map
          (fun l => if lineMatchesKey "fov".data l then "fov".data ++ ':' :: "100".data
                    else l)) :=
  ⟨by decide, by decide,
    (c4_merge_rewrites_every_matching_line "fov:70".data "fov".data "100".data
      (by decide) (by decide) (by decide) (by decide)).2.1⟩

theorem launch_phase2_events (oc : LaunchOracles) (pid gv : Str) (opts : List (Str × Str))
    (st : ProfileInstallStage) (es : List LaunchEvent) :
    (launch_phase2 oc pid gv opts st es).events = es ∨
    (launch_phase2 oc pid gv opts st es).events = es ++ [LaunchEvent.spawnedProcess] := by
  unfold launch_phase2
  by_cases h1 : oc.versionFound2 = true
  · simp only [h1]
    cases h2 : oc.versionInfo2 with
    | error e => simp
    | ok vi =>
      cases h3 : oc.java2 with
      | none => simp
      | some jp =>
        cases h4 : oc.jre2 with
        | none => simp
        | some jr =>
          cases h5 : oc.existingProcesses with
          | cons u us => simp
          | nil =>
            cases h6 : oc.spawn with
            | error e => simp
            | ok h => simp
  · simp [h1]

theorem launch_phase2_no_spawn (oc : LaunchOracles) (pid gv : Str) (opts : List (Str × Str))
    (st : ProfileInstallStage) (es : List LaunchEvent) (u : Str) (us : List Str)
    (hreg : oc.existingProcesses = u :: us) :
    (launch_phase2 oc pid gv opts st es).events = es := by
  unfold launch_phase2
  by_cases h1 : oc.versionFound2 = true
  · simp only [h1]
    cases h2 : oc.versionInfo2 with
    | error e => simp
    | ok vi =>
      cases h3 : oc.java2 with
      | none => simp
      | some jp =>
        cases h4 : oc.jre2 with
        | none => simp
        | some jr => rw [hreg]; simp
  · simp [h1]

theorem launch_phase2_already_running (oc : LaunchOracles) (pid gv : Str)
    (opts : List (Str × Str)) (st : ProfileInstallStage) (es : List LaunchEvent)
    (vi : VersionInfo) (jp jr u : Str) (us : List Str)
    (hvf : oc.versionFound2 = true) (hvi : oc.versionInfo2 = Except.ok vi)
    (hj : oc.java2 = some jp) (hjr : oc.jre2 = some jr)
    (hreg : oc.existingProcesses = u :: us) :
    launch_phase2 oc pid gv opts st es =
      ⟨Except.error (LaunchError.launcherError (alreadyRunningMsg pid u)), st, es, none⟩ := by
  unfold launch_phase2
  rw [hvi, hj, hjr, hreg]
  simp [hvf]

/-- C7: launch refuses with the busy launcher error while the stage is
Installing or PackInstalling (performing nothing else), and for any other
stage different from Installed it runs install_minecraft first, before any
spawn can happen. -/
theorem c7_launch_stage_gate (oc : LaunchOracles) (pid gv : Str) (opts : List (Str × Str))
    (s0 : ProfileInstallStage) :
    ((s0 = ProfileInstallStage.installing ∨ s0 = ProfileInstallStage.packInstalling) →
      launch_minecraft oc pid gv opts s0 =
        ⟨Except.error (LaunchError.launcherError stillInstallingMsg), s0, [], none⟩) ∧
    (¬ s0 = ProfileInstallStage.installing → ¬ s0 = ProfileInstallStage.packInstalling →
      ¬ s0 = ProfileInstallStage.installed →
      (launch_minecraft oc pid gv opts s0).events.head? = some LaunchEvent.ranInstall) := by
  constructor
  · intro hs
    unfold launch_minecraft
    rcases hs with h | h <;> simp [h]
  · intro h1 h2 h3
    unfold launch_minecraft
    have hcond : ¬ (s0 = ProfileInstallStage.packInstalling ∨
        s0 = ProfileInstallStage.installing) := by
      intro hc
      rcases hc with hc | hc
      · exact h2 hc
      · exact h1 hc
    rw [if_neg hcond, if_pos h3]
    rcases hres : install_minecraft oc.mc gv s0 with ⟨r, st, ex⟩
    cases r with
    | error e => simp
    | ok v =>
      simp only []
      rcases launch_phase2_events oc pid gv opts st [LaunchEvent.ranInstall] with h | h <;>
        rw [h] <;> simp

/-- C7 witness: a busy profile is rejected, and a not-installed profile runs
the install step first. -/
theorem c7_witness :
    (launch_minecraft
        ⟨⟨none, true, Except.ok ⟨none, none⟩, some "j".data, some "j".data, none,
            fun _ => some "M".data, fun _ => Except.ok ⟨true, []⟩, none⟩,
          true, Except.ok ⟨none, none⟩, some "j".data, some "j".data, [], none,
          Except.ok 7⟩
        "p".data "1.20".data [] ProfileInstallStage.installing).result =
      Except.error (LaunchError.launcherError stillInstallingMsg) ∧
    (launch_minecraft
        ⟨⟨none, true, Except.ok ⟨none, none⟩, some "j".data, some "j".data, none,
            fun _ => some "M".data, fun _ => Except.ok ⟨true, []⟩, none⟩,
          true, Except.ok ⟨none, none⟩, some "j".data, some "j".data, [], none,
          Except.ok 7⟩
        "p".data "1.20".data [] ProfileInstallStage.notInstalled).events.head? =
      some LaunchEvent.ranInstall := by
  constructor
  · have h := (c7_launch_stage_gate
      ⟨⟨none, true, Except.ok ⟨none, none⟩, some "j".data, some "j".data, none,
          fun _ => some "M".data, fun _ => Except.ok ⟨true, []⟩, none⟩,
        true, Except.ok ⟨none, none⟩, some "j".data, some "j".data, [], none,
        Except.ok 7⟩
      "p".data "1.20".data [] ProfileInstallStage.installing).1 (Or.inl rfl)
    rw [h]
  · exact (c7_launch_stage_gate _ "p".data "1.20".data []
      ProfileInstallStage.notInstalled).2 (by decide) (by decide) (by decide)

/-- C6: when at least one process is registered for the profile, launch never
reaches the spawn/registration step for any initial stage, and an
already-Installed profile whose resolution steps succeed is rejected with
the "already running" launcher error. -/
theorem c6_already_running (oc : LaunchOracles) (pid gv : Str) (opts : List (Str × Str))
    (s0 : ProfileInstallStage) (u : Str) (us : List Str)
    (hreg : oc.existingProcesses = u :: us) :
    ¬ LaunchEvent.spawnedProcess ∈ (launch_minecraft oc pid gv opts s0).events ∧
    (∀ vi jp jr, oc.versionFound2 = true → oc.versionInfo2 = Except.ok vi →
      oc.java2 = some jp → oc.jre2 = some jr →
      launch_minecraft oc pid gv opts ProfileInstallStage.installed =
        ⟨Except.error (LaunchError.launcherError (alreadyRunningMsg pid u)),
          ProfileInstallStage.installed, [], none⟩) := by
  constructor
  · unfold launch_minecraft
    by_cases hbusy : s0 = ProfileInstallStage.packInstalling ∨
        s0 = ProfileInstallStage.installing
    · simp [hbusy]
    · rw [if_neg hbusy]
      by_cases hinstd : s0 = ProfileInstallStage.installed
      · rw [if_neg (by simp [hinstd])]
        rw [launch_phase2_no_spawn oc pid gv opts s0 [] u us hreg]
        simp
      · rw [if_pos hinstd]
        rcases hres : install_minecraft oc.mc gv s0 with ⟨r, st, ex⟩
        cases r with
        | error e => simp
        | ok v =>
          simp only []
          rw [launch_phase2_no_spawn oc pid gv opts st [LaunchEvent.ranInstall] u us hreg]
          simp
  · intro vi jp jr hvf hvi hj hjr
    unfold launch_minecraft
    rw [if_neg (by simp), if_neg (by simp)]
    exact launch_phase2_already_running oc pid gv opts ProfileInstallStage.installed []
      vi jp jr u us hvf hvi hj hjr hreg

/-- C6 witness: one registered process, installed profile, successful
resolution: the result is the already-running error and no spawn event. -/
theorem c6_witness :
    ¬ LaunchEvent.spawnedProcess ∈
      (launch_minecraft
        ⟨⟨none, true, Except.ok ⟨none, none⟩, some "j".data, some "j".data, none,
            fun _ => some "M".data, fun _ => Except.ok ⟨true, []⟩, none⟩,
          true, Except.ok ⟨none, none⟩, some "j".data, some "j".data, ["u1".data], none,
          Except.ok 7⟩
        "p".data "1.20".data [] ProfileInstallStage.installed).events ∧
    launch_minecraft
        ⟨⟨none, true, Except.ok ⟨none, none⟩, some "j".data, some "j".data, none,
            fun _ => some "M".data, fun _ => Except.ok ⟨true, []⟩, none⟩,
          true, Except.ok ⟨none, none⟩, some "j".data, some "j".data, ["u1".data], none,
          Except.ok 7⟩
        "p".data "1.20".data [] ProfileInstallStage.installed =
      ⟨Except.error (LaunchError.launcherError (alreadyRunningMsg "p".data "u1".data)),
        ProfileInstallStage.installed, [], none⟩ := by
  have h := c6_already_running
    ⟨⟨none, true, Except.ok ⟨none, none⟩, some "j".data, some "j".data, none,
        fun _ => some "M".data, fun _ => Except.ok ⟨true, []⟩, none⟩,
      true, Except.ok ⟨none, none⟩, some "j".data, some "j".data, ["u1".data], none,
      Except.ok 7⟩
    "p".data "1.20".data [] ProfileInstallStage.installed "u1".data [] rfl
  exact ⟨h.1, h.2 ⟨none, none⟩ "j".data "j".data rfl rfl rfl rfl⟩

/-- C3 counterexample: two concrete runs refute "on error the stage is left
unchanged from its value at the start".  First, with the metadata version
lookup failing, install_minecraft errors yet leaves the stage at Installing
(the code sets Installing on entry).  Second, with everything succeeding but
the trailing State::sync / final emit_loading failing (mod.rs:293-294),
install_minecraft errors with the stage already set to Installed — so an
error can even leave the stage Installed, never the initial NotInstalled. -/
theorem c3_counterexample :
    install_minecraft
        ⟨none, false, Except.ok ⟨none, none⟩, some "j".data, some "j".data, none,
          fun _ => some "M".data, fun _ => Except.ok ⟨true, []⟩, none⟩
        "1.20".data ProfileInstallStage.notInstalled =
      (Except.error (LaunchError.launcherError (invalidVersionMsg "1.20".data)),
        ProfileInstallStage.installing, []) ∧
    ¬ ProfileInstallStage.installing = ProfileInstallStage.notInstalled ∧
    install_minecraft
        ⟨none, true, Except.ok ⟨none, none⟩, some "j".data, some "j".data, none,
          fun _ => some "M".data, fun _ => Except.ok ⟨true, []⟩,
          some (LaunchError.otherError "sync failed".data)⟩
        "1.20".data ProfileInstallStage.notInstalled =
      (Except.error (LaunchError.otherError "sync failed".data),
        ProfileInstallStage.installed, []) ∧
    ¬ ProfileInstallStage.installed = ProfileInstallStage.notInstalled := by
  exact ⟨by decide, by decide, by decide, by decide⟩

/-- C3 amended: success always leaves the stage Installed.  On failure the
stage is never rolled back: it is the initial value only when the failure
preceded the initial stage edit, Installing when the failure fell between the
two stage edits, and Installed when the failure came from the trailing
sync/progress emission after the final stage edit; an error can therefore
end at Installed only for an initially-Installed profile or a trailing-sync
failure.  When the trailing sync succeeds and the profile was not already
Installed, success holds iff the final stage is Installed. -/
theorem c3_stage_after_install (oc : McOracles) (gv : Str) (s0 : ProfileInstallStage) :
    ((install_minecraft oc gv s0).1 = Except.ok () →
      (install_minecraft oc gv s0).2.1 = ProfileInstallStage.installed) ∧
    (∀ e, (install_minecraft oc gv s0).1 = Except.error e →
      (install_minecraft oc gv s0).2.1 = s0 ∨
      (install_minecraft oc gv s0).2.1 = ProfileInstallStage.installing ∨
      (install_minecraft oc gv s0).2.1 = ProfileInstallStage.installed) ∧
    (∀ e, (install_minecraft oc gv s0).1 = Except.error e →
      (install_minecraft oc gv s0).2.1 = ProfileInstallStage.installed →
      s0 = ProfileInstallStage.installed ∨ ¬ oc.finalSync = none) ∧
    (oc.finalSync = none → ¬ s0 = ProfileInstallStage.installed →
      ((install_minecraft oc gv s0).1 = Except.ok () ↔
        (install_minecraft oc gv s0).2.1 = ProfileInstallStage.installed)) := by
  have hmaster :
      ((install_minecraft oc gv s0).1 = Except.ok () ∧
        (install_minecraft oc gv s0).2.1 = ProfileInstallStage.installed ∧
        oc.finalSync = none) ∨
      ((∃ e, (install_minecraft oc gv s0).1 = Except.error e) ∧
        ((install_minecraft oc gv s0).2.1 = s0 ∨
          (install_minecraft oc gv s0).2.1 = ProfileInstallStage.installing)) ∨
      ((∃ e, (install_minecraft oc gv s0).1 = Except.error e ∧
          oc.finalSync = some e) ∧
        (install_minecraft oc gv s0).2.1 = ProfileInstallStage.installed) := by
    unfold install_minecraft
    cases h1 : oc.initBar with
    | some e => exact Or.inr (Or.inl ⟨⟨e, rfl⟩, Or.inl rfl⟩)
    | none =>
      by_cases h2 : oc.versionFound = true
      · cases h3 : oc.versionInfo with
        | error e =>
          exact Or.inr (Or.inl ⟨⟨e, by simp [h2]⟩, Or.inr (by simp [h2])⟩)
        | ok vi =>
          cases h4 : oc.javaVersion with
          | none =>
            exact Or.inr (Or.inl ⟨⟨LaunchError.otherError missingJavaMsg, by simp [h2]⟩,
              Or.inr (by simp [h2])⟩)
          | some jpath =>
            cases h5 : oc.jreCheck with
            | none =>
              exact Or.inr (Or.inl ⟨⟨LaunchError.launcherError (invalidJavaPathMsg jpath),
                by simp [h2]⟩, Or.inr (by simp [h2])⟩)
            | some jr =>
              cases h6 : oc.downloadMc with
              | some e =>
                exact Or.inr (Or.inl ⟨⟨e, by simp [h2]⟩, Or.inr (by simp [h2])⟩)
              | none =>
                rcases h7 : processorsPhase oc vi with ⟨ex, err⟩
                cases err with
                | some e =>
                  exact Or.inr (Or.inl ⟨⟨e, by simp [h2, h7]⟩,
                    Or.inr (by simp [h2, h7])⟩)
                | none =>
                  cases h8 : oc.finalSync with
                  | some e =>
                    exact Or.inr (Or.inr ⟨⟨e, by simp [h2, h7, h8], rfl⟩,
                      by simp [h2, h7, h8]⟩)
                  | none =>
                    exact Or.inl ⟨by simp [h2, h7, h8], by simp [h2, h7, h8], rfl⟩
      · exact Or.inr (Or.inl ⟨⟨LaunchError.launcherError (invalidVersionMsg gv),
          by simp [h2]⟩, Or.inr (by simp [h2])⟩)
  refine ⟨?_, ?_, ?_, ?_⟩
  · intro hok
    rcases hmaster with ⟨_, h, _⟩ | ⟨⟨e, he⟩, _⟩ | ⟨⟨e, he, _⟩, _⟩
    · exact h
    · rw [hok] at he
      exact absurd he (by simp)
    · rw [hok] at he
      exact absurd he (by simp)
  · intro e he
    rcases hmaster with ⟨hok, _, _⟩ | ⟨_, h⟩ | ⟨_, h⟩
    · rw [he] at hok
      exact absurd hok (by simp)
    · rcases h with h | h
      · exact Or.inl h
      · exact Or.inr (Or.inl h)
    · exact Or.inr (Or.inr h)
  · intro e he hst
    rcases hmaster with ⟨hok, _, _⟩ | ⟨_, h⟩ | ⟨⟨e', _, hsync⟩, _⟩
    · rw [he] at hok
      exact absurd hok (by simp)
    · rcases h with h | h
      · rw [hst] at h
        exact Or.inl h.symm
      · rw [hst] at h
        exact absurd h (by decide)
    · refine Or.inr ?_
      rw [hsync]
      simp
  · intro hsync hs0
    constructor
    · intro hok
      rcases hmaster with ⟨_, h, _⟩ | ⟨⟨e, he⟩, _⟩ | ⟨⟨e, he, _⟩, _⟩
      · exact h
      · rw [hok] at he
        exact absurd he (by simp)
      · rw [hok] at he
        exact absurd he (by simp)
    · intro hst
      rcases hmaster with ⟨hok, _, _⟩ | ⟨_, h⟩ | ⟨⟨e, _, hs⟩, _⟩
      · exact hok
      · rcases h with h | h
        · rw [hst] at h
          exact absurd h.symm hs0
        · rw [hst] at h
          exact absurd h (by decide)
      · rw [hsync] at hs
        exact absurd hs (by simp)

/-- C3 witness: a fully successful run from NotInstalled ends Installed. -/
theorem c3_witness :
    (install_minecraft
        ⟨none, true, Except.ok ⟨none, none⟩, some "j".data, some "j".data, none,
          fun _ => some "M".data, fun _ => Except.ok ⟨true, []⟩, none⟩
        "1.20".data ProfileInstallStage.notInstalled).2.1 =
      ProfileInstallStage.installed :=
  (c3_stage_after_install
      ⟨none, true, Except.ok ⟨none, none⟩, some "j".data, some "j".data, none,
        fun _ => some "M".data, fun _ => Except.ok ⟨true, []⟩, none⟩
      "1.20".data ProfileInstallStage.notInstalled).1 (by decide)

/-- The positions of the processors the loop does not skip (declared side
list absent or containing "client"), counting from i. -/
def allowedIndicesFrom : List Processor → Nat → List Nat
  | [], _ => []
  | p :: rest, i =>
    if sidesAllow p then i :: allowedIndicesFrom rest (i + 1)
    else allowedIndicesFrom rest (i + 1)

def allowedIndices (ps : List Processor) : List Nat :=
  allowedIndicesFrom ps 0

theorem allowedIndicesFrom_ge : ∀ (ps : List Processor) (i j : Nat),
    j ∈ allowedIndicesFrom ps i → i ≤ j
  | [], i, j, h => absurd h (by simp [allowedIndicesFrom])
  | p :: rest, i, j, h => by
    unfold allowedIndicesFrom at h
    by_cases hs : sidesAllow p = true
    · rw [if_pos hs] at h
      rcases List.mem_cons.mp h with h1 | h1
      · omega
      · have := allowedIndicesFrom_ge rest (i + 1) j h1
        omega
    · rw [if_neg hs] at h
      have := allowedIndicesFrom_ge rest (i + 1) j h
      omega

theorem runProcessors_all_ok (oc : McOracles) :
    ∀ (ps : List Processor) (i : Nat),
      (∀ j ∈ allowedIndicesFrom ps i, oc.mainClass j ≠ none) →
      (∀ j ∈ allowedIndicesFrom ps i, ∃ o, oc.exec j = Except.ok o ∧ o.success = true) →
      runProcessors oc ps i = (allowedIndicesFrom ps i, none)
  | [], i, _, _ => rfl
  | p :: rest, i, hmc, hok => by
    unfold runProcessors allowedIndicesFrom
    by_cases hs : sidesAllow p = true
    · simp only [if_pos hs]
      have hmem : i ∈ allowedIndicesFrom (p :: rest) i := by
        unfold allowedIndicesFrom
        rw [if_pos hs]
        exact List.mem_cons_self i _
      cases hmci : oc.mainClass i with
      | none => exact absurd hmci (hmc i hmem)
      | some c =>
        obtain ⟨o, hexec, hsucc⟩ := hok i hmem
        rw [hexec]
        simp only [hsucc, if_pos]
        have htail : ∀ j ∈ allowedIndicesFrom rest (i + 1),
            j ∈ allowedIndicesFrom (p :: rest) i := by
          intro j hj
          unfold allowedIndicesFrom
          rw [if_pos hs]
          exact List.mem_cons.mpr (Or.inr hj)
        rw [runProcessors_all_ok oc rest (i + 1)
          (fun j hj => hmc j (htail j hj))
          (fun j hj => hok j (htail j hj))]
    · simp only [if_neg hs]
      have htail : ∀ j ∈ allowedIndicesFrom rest (i + 1),
          j ∈ allowedIndicesFrom (p :: rest) i := by
        intro j hj
        unfold allowedIndicesFrom
        rw [if_neg hs]
        exact hj
      exact runProcessors_all_ok oc rest (i + 1)
        (fun j hj => hmc j (htail j hj))
        (fun j hj => hok j (htail j hj))

theorem runProcessors_first_failure (oc : McOracles) :
    ∀ (ps : List Processor) (i i0 : Nat) (out : ProcOutput),
      i0 ∈ allowedIndicesFrom ps i →
      (∀ j ∈ allowedIndicesFrom ps i, j ≤ i0 → oc.mainClass j ≠ none) →
      (∀ j ∈ allowedIndicesFrom ps i, j < i0 →
        ∃ o, oc.exec j = Except.ok o ∧ o.success = true) →
      oc.exec i0 = Except.ok out → out.success = false →
      runProcessors oc ps i =
        ((allowedIndicesFrom ps i).filter (fun j => decide (j ≤ i0)),
          some (LaunchError.launcherError (processorErrorMsg out.stderr)))
  | [], i, i0, out, hmem, _, _, _, _ => absurd hmem (by simp [allowedIndicesFrom])
  | p :: rest, i, i0, out, hmem, hmc, hok, hexec0, hfail => by
    unfold runProcessors allowedIndicesFrom
    by_cases hs : sidesAllow p = true
    · simp only [if_pos hs]
      have hconsmem : ∀ j ∈ allowedIndicesFrom rest (i + 1),
          j ∈ allowedIndicesFrom (p :: rest) i := by
        intro j hj
        unfold allowedIndicesFrom
        rw [if_pos hs]
        exact List.mem_cons.mpr (Or.inr hj)
      have hselfmem : i ∈ allowedIndicesFrom (p :: rest) i := by
        unfold allowedIndicesFrom
        rw [if_pos hs]
        exact List.mem_cons_self i _
      unfold allowedIndicesFrom at hmem
      rw [if_pos hs] at hmem
      rcases List.mem_cons.mp hmem with hi0 | hi0
      · subst hi0
        cases hmci : oc.mainClass i0 with
        | none => exact absurd hmci (hmc i0 hselfmem (Nat.le_refl i0))
        | some c =>
          rw [hexec0]
          simp only [hfail, Bool.false_eq_true, if_false]
          have hnil : (allowedIndicesFrom rest (i0 + 1)).filter
              (fun j => decide (j ≤ i0)) = [] := by
            rw [List.filter_eq_nil_iff]
            intro j hj
            have := allowedIndicesFrom_ge rest (i0 + 1) j hj
            simp only [decide_eq_true_eq]
            omega
          simp [List.filter_cons, hnil]
      · have hii0 : i + 1 ≤ i0 := allowedIndicesFrom_ge rest (i + 1) i0 hi0
        cases hmci : oc.mainClass i with
        | none => exact absurd hmci (hmc i hselfmem (by omega))
        | some c =>
          obtain ⟨o, hexec, hsucc⟩ := hok i hselfmem (by omega)
          rw [hexec]
          simp only [hsucc, if_pos]
          rw [runProcessors_first_failure oc rest (i + 1) i0 out hi0
            (fun j hj hle => hmc j (hconsmem j hj) hle)
            (fun j hj hlt => hok j (hconsmem j hj) hlt) hexec0 hfail]
          have : decide (i ≤ i0) = true := by
            simp only [decide_eq_true_eq]
            omega
          simp [this]
    · simp only [if_neg hs]
      unfold allowedIndicesFrom at hmem
      rw [if_neg hs] at hmem
      exact runProcessors_first_failure oc rest (i + 1) i0 out hmem
        (fun j hj hle => hmc j (by unfold allowedIndicesFrom; rw [if_neg hs]; exact hj) hle)
        (fun j hj hlt => hok j (by unfold allowedIndicesFrom; rw [if_neg hs]; exact hj) hlt)
        hexec0 hfail

theorem runProcessors_fst_increasing (oc : McOracles) :
    ∀ (ps : List Processor) (i : Nat),
      List.Pairwise (fun a b => a < b) (runProcessors oc ps i).1 ∧
      (∀ j ∈ (runProcessors oc ps i).1, i ≤ j)
  | [], i => ⟨List.Pairwise.nil, by simp [runProcessors]⟩
  | p :: rest, i => by
    unfold runProcessors
    by_cases hs : sidesAllow p = true
    · simp only [if_pos hs]
      cases oc.mainClass i with
      | none => exact ⟨List.Pairwise.nil, by simp⟩
      | some c =>
        cases oc.exec i with
        | error e => simp
        | ok out =>
          by_cases ho : out.success = true
          · simp only [ho, if_pos]
            obtain ⟨hpw, hge⟩ := runProcessors_fst_increasing oc rest (i + 1)
            constructor
            · exact List.Pairwise.cons (fun j hj => by have := hge j hj; omega) hpw
            · intro j hj
              rcases List.mem_cons.mp hj with h | h
              · omega
              · have := hge j h
                omega
          · simp only [Bool.not_eq_true] at ho
            simp only [ho, Bool.false_eq_true, if_false]
            simp
    · simp only [if_neg hs]
      obtain ⟨hpw, hge⟩ := runProcessors_fst_increasing oc rest (i + 1)
      exact ⟨hpw, fun j hj => by have := hge j hj; omega⟩

/-- C8 counterexample: a version info that declares one client-sided
processor whose execution would report non-zero exit, but provides no
interpolation data map: install_minecraft runs no processor at all and
succeeds, while the claim requires the declared processor to run and its
failure to abort the install. -/
theorem c8_counterexample :
    install_minecraft
        ⟨none, true, Except.ok ⟨some [⟨none, "p.jar".data⟩], none⟩, some "j".data,
          some "j".data, none, fun _ => some "M".data,
          fun _ => Except.ok ⟨false, "boom".data⟩, none⟩
        "1.20".data ProfileInstallStage.notInstalled =
      (Except.ok (), ProfileInstallStage.installed, []) ∧
    sidesAllow ⟨none, "p.jar".data⟩ = true ∧
    (⟨false, "boom".data⟩ : ProcOutput).success = false := by
  exact ⟨by decide, by decide, by decide⟩

/-- C8 amended: when the version info declares processors AND an
interpolation data map, and the preceding install steps succeed: if every
non-skipped (client-sided) processor resolves its main class and exits
successfully (and the trailing sync after the final stage edit also
succeeds), exactly the client-sided processors run, in declared order;
if i0 is the first client-sided index whose process exits non-zero, install
aborts with a launcher error carrying that process's stderr and exactly the
client-sided indices up to i0 were started, none after; and the started
indices are always strictly increasing (one at a time, in declared order). -/
theorem c8_processor_order_and_abort (oc : McOracles) (gv : Str)
    (s0 : ProfileInstallStage) (vi : VersionInfo) (ps : List Processor)
    (d : List (Str × Str)) (jp jr : Str)
    (hbar : oc.initBar = none) (hvf : oc.versionFound = true)
    (hvi : oc.versionInfo = Except.ok vi) (hps : vi.processors = some ps)
    (hd : vi.data = some d) (hj : oc.javaVersion = some jp)
    (hjre : oc.jreCheck = some jr) (hdl : oc.downloadMc = none) :
    (oc.finalSync = none →
      (∀ j ∈ allowedIndices ps, oc.mainClass j ≠ none) →
      (∀ j ∈ allowedIndices ps, ∃ o, oc.exec j = Except.ok o ∧ o.success = true) →
      install_minecraft oc gv s0 =
        (Except.ok (), ProfileInstallStage.installed, allowedIndices ps)) ∧
    (∀ i0 out, i0 ∈ allowedIndices ps →
      (∀ j ∈ allowedIndices ps, j ≤ i0 → oc.mainClass j ≠ none) →
      (∀ j ∈ allowedIndices ps, j < i0 →
        ∃ o, oc.exec j = Except.ok o ∧ o.success = true) →
      oc.exec i0 = Except.ok out → out.success = false →
      install_minecraft oc gv s0 =
        (Except.error (LaunchError.launcherError (processorErrorMsg out.stderr)),
          ProfileInstallStage.installing,
          (allowedIndices ps).filter (fun j => decide (j ≤ i0)))) ∧
    List.Pairwise (fun a b => a < b) (install_minecraft oc gv s0).2.2 := by
  have hphase : processorsPhase oc vi = runProcessors oc ps 0 := by
    unfold processorsPhase
    rw [hps, hd]
  refine ⟨?_, ?_, ?_⟩
  · intro hsync hmc hok
    have hrun := runProcessors_all_ok oc ps 0 hmc hok
    unfold install_minecraft
    rw [hbar]
    simp only [hvf, not_true, if_neg, hvi, hj, hjre, hdl, hphase, hrun, hsync]
    simp only [allowedIndices]
    simp
  · intro i0 out hmem hmc hok hexec0 hfail
    have hrun := runProcessors_first_failure oc ps 0 i0 out hmem hmc hok hexec0 hfail
    unfold install_minecraft
    rw [hbar]
    simp only [hvf, not_true, if_neg, hvi, hj, hjre, hdl, hphase, hrun]
    simp only [allowedIndices]
    simp
  · unfold install_minecraft
    rw [hbar]
    rcases hrp : runProcessors oc ps 0 with ⟨ex, err⟩
    have hpw := (runProcessors_fst_increasing oc ps 0).1
    rw [hrp] at hpw
    cases err with
    | some e => simp only [hvf, not_true, if_neg, hvi, hj, hjre, hdl, hphase, hrp]; simpa
    | none =>
      simp only [hvf, not_true, if_neg, hvi, hj, hjre, hdl, hphase, hrp]
      cases h9 : oc.finalSync with
      | some e => simpa
      | none => simpa

/-- C8 witness: two processors, the second server-only (skipped); with all
executions succeeding only index 0 runs; and with index 0 failing the
install aborts carrying its stderr. -/
theorem c8_witness :
    (0 : Nat) ∈ allowedIndices [⟨none, "a.jar".data⟩, ⟨some ["server".data], "b.jar".data⟩] ∧
    install_minecraft
        ⟨none, true,
          Except.ok ⟨some [⟨none, "a.jar".data⟩, ⟨some ["server".data], "b.jar".data⟩],
            some []⟩,
          some "j".data, some "j".data, none, fun _ => some "M".data,
          fun _ => Except.ok ⟨false, "boom".data⟩, none⟩
        "1.20".data ProfileInstallStage.notInstalled =
      (Except.error (LaunchError.launcherError (processorErrorMsg "boom".data)),
        ProfileInstallStage.installing, [0]) := by
  constructor
  · decide
  · have h := (c8_processor_order_and_abort
      ⟨none, true,
        Except.ok ⟨some [⟨none, "a.jar".data⟩, ⟨some ["server".data], "b.jar".data⟩],
          some []⟩,
        some "j".data, some "j".data, none, fun _ => some "M".data,
        fun _ => Except.ok ⟨false, "boom".data⟩, none⟩
      "1.20".data ProfileInstallStage.notInstalled
      ⟨some [⟨none, "a.jar".data⟩, ⟨some ["server".data], "b.jar".data⟩], some []⟩
      [⟨none, "a.jar".data⟩, ⟨some ["server".data], "b.jar".data⟩]
      [] "j".data "j".data rfl rfl rfl rfl rfl rfl rfl rfl).2.1 0
      ⟨false, "boom".data⟩ (by decide)
      (by intro j hj hle; simp) (by intro j hj hlt; omega) rfl (by decide)
    rw [h]
    decide

/-- C2: install_zipped_mrpack_files never deletes an already-materialized
file and never removes the profile, even on failure; an error anywhere
aborts the call with that error (in particular, a pack-file-phase error is
returned as-is and the override phase is not reached); removing the
partially-created profile is done by the caller install_zipped_mrpack. -/
theorem c2_no_rollback_error_propagation
    (parse : Str → Except PackError PackFormat)
    (fetch : List Str → Option Str → Except PackError Str)
    (spi bar imc : Option PackError) (root : List Str) (zip : List ZipEntry) :
    ((install_zipped_mrpack_files parse fetch spi bar imc root zip).1.deletes = [] ∧
      (install_zipped_mrpack_files parse fetch spi bar imc root zip).1.profileRemoved
        = false) ∧
    (∀ e, (install_zipped_mrpack_files parse fetch spi bar imc root zip).2 = some e →
      install_zipped_mrpack none parse fetch spi bar imc root zip =
        ({ (install_zipped_mrpack_files parse fetch spi bar imc root zip).1 with
            profileRemoved := true }, some e)) ∧
    (∀ entry pack e, findManifest zip = some entry →
      parse entry.content = Except.ok pack → pack.game = minecraftStr →
      spi = none → bar = none →
      (processPackFiles fetch root pack.files).2 = some e →
      install_zipped_mrpack_files parse fetch spi bar imc root zip =
        (⟨(processPackFiles fetch root pack.files).1.fetches,
          (processPackFiles fetch root pack.files).1.writes, [], false⟩, some e)) := by
  refine ⟨?_, ?_, ?_⟩
  · unfold install_zipped_mrpack_files
    repeat' split
    all_goals exact ⟨rfl, rfl⟩
  · intro e he
    unfold install_zipped_mrpack
    rcases hres : install_zipped_mrpack_files parse fetch spi bar imc root zip with ⟨eff, err⟩
    rw [hres] at he
    simp only at he
    subst he
    simp [hres]
  · intro entry pack e hfm hp hg hspi hbar hpf
    subst hspi
    subst hbar
    unfold install_zipped_mrpack_files
    simp only [hfm, hp]
    rw [if_neg (by simp [hg])]
    rcases hpp : processPackFiles fetch root pack.files with ⟨tr, err⟩
    rw [hpp] at hpf
    simp only at hpf
    subst hpf
    simp [hpp]

/-- C2 witness: a manifest that fails to decode aborts the call with the
schema error, with no deletions; the wrapper then removes the profile. -/
theorem c2_witness :
    install_zipped_mrpack none (fun _ => Except.error PackError.schemaError)
        (fun _ _ => Except.error PackError.fetchError) none none none ["r".data]
        [⟨manifestEntryName, "M".data⟩] =
      ({ (install_zipped_mrpack_files (fun _ => Except.error PackError.schemaError)
            (fun _ _ => Except.error PackError.fetchError) none none none ["r".data]
            [⟨manifestEntryName, "M".data⟩]).1 with profileRemoved := true },
        some PackError.schemaError) :=
  (c2_no_rollback_error_propagation (fun _ => Except.error PackError.schemaError)
    (fun _ _ => Except.error PackError.fetchError) none none none ["r".data]
    [⟨manifestEntryName, "M".data⟩]).2.1 PackError.schemaError (by decide)

/-- C10: override classification in install and remove is by string prefix of
the full entry name, not by path segment: every matching non-directory entry
is processed as an override — written under the profile root with its first
path component stripped (when a file name remains) and targeted for deletion
by remove; concretely "overrides-extra/a.txt", whose first segment is not an
overrides/ or client_overrides/ directory, is extracted to root/a.txt and
targeted by remove there, and "client_overridesX" is classified and counted
as an override. -/
theorem c10_override_by_string_prefix :
    (∀ root (e : ZipEntry) (seg : Str), isOverrideName e.filename = true →
      fileNameOf (strippedOverridePath e.filename) = some seg →
      overrideInstallAction root e =
        some (root ++ renderSegs (strippedOverridePath e.filename), e.content) ∧
      overrideRemoveTarget root e =
        some (root ++ renderSegs (strippedOverridePath e.filename))) ∧
    isOverrideName "overrides-extra/a.txt".data = true ∧
    firstComponent "overrides-extra/a.txt".data =
      some (PathComponent.normal "overrides-extra".data) ∧
    ¬ "overrides-extra".data = "overrides".data ∧
    ¬ "overrides-extra".data = "client_overrides".data ∧
    (∀ root c, overrideInstallAction root ⟨"overrides-extra/a.txt".data, c⟩ =
      some (root ++ ["a.txt".data], c)) ∧
    (∀ root c, overrideRemoveTarget root ⟨"overrides-extra/a.txt".data, c⟩ =
      some (root ++ ["a.txt".data])) ∧
    isOverrideName "client_overridesX".data = true ∧
    (∀ c, overrideCount [⟨"client_overridesX".data, c⟩] = 1) := by
  refine ⟨?_, by decide, by decide, by decide, by decide, ?_, ?_, by decide, ?_⟩
  · intro root e seg ho hf
    constructor
    · unfold overrideInstallAction
      simp [ho, hf]
    · unfold overrideRemoveTarget
      simp [ho]
  · intro root c
    rfl
  · intro root c
    rfl
  · intro c
    rfl

/-- C10 witness: the general clause applied to the concrete entry
"overrides-extra/a.txt". -/
theorem c10_witness :
    overrideInstallAction ["r".data] ⟨"overrides-extra/a.txt".data, "C".data⟩ =
      some (["r".data] ++
        renderSegs (strippedOverridePath "overrides-extra/a.txt".data), "C".data) ∧
    overrideRemoveTarget ["r".data] ⟨"overrides-extra/a.txt".data, "C".data⟩ =
      some (["r".data] ++ renderSegs (strippedOverridePath "overrides-extra/a.txt".data)) :=
  c10_override_by_string_prefix.1 ["r".data] ⟨"overrides-extra/a.txt".data, "C".data⟩
    "a.txt".data (by decide) (by decide)

/-! ## C9 machinery: behavior of the removal fold over a prefix-free
filesystem -/

theorem eraseFile_eq_filter (t : FsPath) :
    ∀ fs : List FsPath, fs.Nodup →
      eraseFile t fs = fs.filter (fun p => decide (¬ p = t))
  | [], _ => rfl
  | p :: ps, hnd => by
    unfold eraseFile
    by_cases hp : p = t
    · subst hp
      rw [if_pos rfl, List.filter_cons_of_neg (by simp)]
      have hnotin : ¬ p ∈ ps := (List.nodup_cons.mp hnd).1
      refine (List.filter_eq_self.mpr ?_).symm
      intro a ha
      simp only [decide_eq_true_eq]
      intro h
      exact hnotin (h ▸ ha)
    · rw [if_neg hp, List.filter_cons_of_pos (by simp [hp]),
        eraseFile_eq_filter t ps (List.nodup_cons.mp hnd).2]

theorem removeIfExists_mem (fs : List FsPath) (t : FsPath) (htin : t ∈ fs) :
    removeIfExists fs t = (eraseFile t fs, none) := by
  unfold removeIfExists removeFileOp pathExistsB
  rw [if_pos (by rw [Bool.or_eq_true]; exact Or.inl (decide_eq_true htin)), if_pos htin]

theorem removeIfExists_absent (fs : List FsPath) (t : FsPath)
    (hex : pathExistsB fs t = false) : removeIfExists fs t = (fs, none) := by
  unfold removeIfExists
  rw [if_neg (by rw [hex]; exact Bool.false_ne_true)]

/-- Over a prefix-free ambient filesystem, when every target is either an
existing regular file or no directory holding remaining files, the removal
fold deletes exactly the targeted files and reports no error. -/
theorem removeTargetsFold_clean (fs0 : List FsPath)
    (hpf : ∀ p ∈ fs0, ∀ q ∈ fs0, p.isPrefixOf q = true → p = q) :
    ∀ (ts : List FsPath) (fs : List FsPath), fs.Nodup → (∀ p ∈ fs, p ∈ fs0) →
      (∀ t ∈ ts, t ∈ fs0 ∨ dirLike fs0 t = false) →
      removeTargetsFold fs ts = (fs.filter (fun p => decide (¬ p ∈ ts)), none)
  | [], fs, _, _, _ => by
    unfold removeTargetsFold
    refine congrArg (fun l => (l, none)) ?_
    refine (List.filter_eq_self.mpr ?_).symm
    intro a _
    simp
  | t :: ts, fs, hnd, hsub, hcond => by
    by_cases hex : pathExistsB fs t = true
    · have htin : t ∈ fs := by
        unfold pathExistsB at hex
        rw [Bool.or_eq_true] at hex
        rcases hex with h | h
        · exact of_decide_eq_true h
        · exfalso
          unfold dirLike at h
          obtain ⟨q, hq, hpq⟩ := List.any_eq_true.mp h
          rw [Bool.and_eq_true] at hpq
          have hpq1 : t.isPrefixOf q = true := hpq.1
          have hpq2 : ¬ t = q := by
            have h2 := hpq.2
            simp only [Bool.not_eq_eq_eq_not, Bool.not_true, beq_eq_false_iff_ne] at h2
            exact h2
          have hq0 : q ∈ fs0 := hsub q hq
          rcases hcond t (List.mem_cons_self t ts) with ht0 | hdl0
          · exact hpq2 (hpf t ht0 q hq0 hpq1)
          · have hdl1 : dirLike fs0 t = true := by
              unfold dirLike
              refine List.any_eq_true.mpr ⟨q, hq0, ?_⟩
              rw [Bool.and_eq_true]
              refine ⟨hpq1, ?_⟩
              simp only [Bool.not_eq_eq_eq_not, Bool.not_true, beq_eq_false_iff_ne]
              exact hpq2
            rw [hdl1] at hdl0
            exact absurd hdl0 (by simp)
      unfold removeTargetsFold
      rw [removeIfExists_mem fs t htin]
      show removeTargetsFold (eraseFile t fs) ts =
        (fs.filter (fun p => decide (¬ p ∈ t :: ts)), none)
      rw [eraseFile_eq_filter t fs hnd]
      have hnd' := List.Nodup.filter (fun p => decide (¬ p = t)) hnd
      have hsub' : ∀ p ∈ fs.filter (fun p => decide (¬ p = t)), p ∈ fs0 :=
        fun p hp => hsub p (List.mem_of_mem_filter hp)
      have hcond' : ∀ u ∈ ts, u ∈ fs0 ∨ dirLike fs0 u = false :=
        fun u hu => hcond u (List.mem_cons.mpr (Or.inr hu))
      rw [removeTargetsFold_clean fs0 hpf ts _ hnd' hsub' hcond']
      refine congrArg (fun l => (l, none)) ?_
      rw [List.filter_filter]
      apply List.filter_congr
      intro a _
      by_cases h1 : a = t <;> by_cases h2 : a ∈ ts <;> simp [h1, h2]
    · have hexf : pathExistsB fs t = false := by
        cases hpe : pathExistsB fs t with
        | false => rfl
        | true => exact absurd hpe hex
      have htnotin : ¬ t ∈ fs := by
        intro hin
        apply hex
        unfold pathExistsB
        rw [Bool.or_eq_true]
        exact Or.inl (decide_eq_true hin)
      unfold removeTargetsFold
      rw [removeIfExists_absent fs t hexf]
      show removeTargetsFold fs ts = (fs.filter (fun p => decide (¬ p ∈ t :: ts)), none)
      rw [removeTargetsFold_clean fs0 hpf ts fs hnd hsub
        (fun u hu => hcond u (List.mem_cons.mpr (Or.inr hu)))]
      refine congrArg (fun l => (l, none)) ?_
      apply List.filter_congr
      intro a ha
      have hat : ¬ a = t := fun h => htnotin (h ▸ ha)
      simp [List.mem_cons, hat]

theorem install_pack_file_item_write_path
    (fetch : List Str → Option Str → Except PackError Str) (root : List Str)
    (f : PackFile) (w : List Str) (b : Str)
    (h : (w, b) ∈ (install_pack_file_item fetch root f).1.writes) :
    w = joinPath root f.path := by
  unfold install_pack_file_item at h
  by_cases hu : clientUnsupported f = true
  · rw [if_pos hu] at h
    exact absurd h (by simp)
  · rw [if_neg hu] at h
    cases hfetch : fetch f.downloads (sha1Of f) with
    | error e =>
      rw [hfetch] at h
      exact absurd h (by simp)
    | ok bytes =>
      rw [hfetch] at h
      rcases hfc : firstComponent f.path with _ | c
      · rw [hfc] at h
        exact absurd h (by simp)
      · cases c with
        | rootDir =>
          rw [hfc] at h
          exact absurd h (by simp)
        | curDir =>
          rw [hfc] at h
          simp at h
          exact h.1
        | parentDir =>
          rw [hfc] at h
          exact absurd h (by simp)
        | normal seg =>
          rw [hfc] at h
          simp at h
          exact h.1

theorem processPackFiles_writes_mem
    (fetch : List Str → Option Str → Except PackError Str) (root : List Str) :
    ∀ (fl : List PackFile) (w : List Str) (b : Str),
      (w, b) ∈ (processPackFiles fetch root fl).1.writes →
      w ∈ fl.map (fun f => joinPath root f.path)
  | [], w, b, h => absurd h (by simp [processPackFiles])
  | f :: rest, w, b, h => by
    unfold processPackFiles at h
    rcases hit : install_pack_file_item fetch root f with ⟨tr, err⟩
    rw [hit] at h
    have hhead : (w, b) ∈ tr.writes → w ∈ (f :: rest).map (fun g => joinPath root g.path) := by
      intro hw
      have := install_pack_file_item_write_path fetch root f w b (by rw [hit]; exact hw)
      simp only [List.map_cons, List.mem_cons]
      exact Or.inl this
    cases err with
    | some e =>
      simp only at h
      exact hhead h
    | none =>
      rcases hpp : processPackFiles fetch root rest with ⟨tr2, err2⟩
      rw [hpp] at h
      simp only at h
      rcases List.mem_append.mp h with h1 | h1
      · exact hhead h1
      · have := processPackFiles_writes_mem fetch root rest w b (by rw [hpp]; exact h1)
        simp only [List.map_cons, List.mem_cons]
        exact Or.inr (by simpa using this)

theorem processOverrides_writes_mem (root : List Str) (zip : List ZipEntry)
    (w : List Str) (b : Str) (h : (w, b) ∈ processOverrides root zip) :
    w ∈ zip.filterMap (overrideRemoveTarget root) := by
  unfold processOverrides at h
  obtain ⟨e, he, hact⟩ := List.mem_filterMap.mp h
  refine List.mem_filterMap.mpr ⟨e, he, ?_⟩
  unfold overrideInstallAction at hact
  by_cases ho : isOverrideName e.filename = true
  · rw [if_pos ho] at hact
    unfold overrideRemoveTarget
    rw [if_pos ho]
    cases hf : fileNameOf (strippedOverridePath e.filename) with
    | none =>
      rw [hf] at hact
      exact absurd hact (by simp)
    | some seg =>
      rw [hf] at hact
      simp only [Option.some.injEq] at hact
      exact congrArg some (congrArg Prod.fst hact)
  · rw [if_neg ho] at hact
    exact absurd hact (by simp)

/-- The full set of deletion targets of remove_all_related_files. -/
def removeTargets (root : List Str) (zip : List ZipEntry) (pack : PackFormat) :
    List FsPath :=
  pack.files.map (fun f => joinPath root f.path) ++ zip.filterMap (overrideRemoveTarget root)

theorem install_files_writes_in_targets
    (parse : Str → Except PackError PackFormat)
    (fetch : List Str → Option Str → Except PackError Str)
    (imc : Option PackError) (root : List Str) (zip : List ZipEntry)
    (entry : ZipEntry) (pack : PackFormat) (eff : InstallEffects)
    (hfm : findManifest zip = some entry) (hp : parse entry.content = Except.ok pack)
    (hres : install_zipped_mrpack_files parse fetch none none imc root zip = (eff, none)) :
    ∀ w b, (w, b) ∈ eff.writes → w ∈ removeTargets root zip pack := by
  unfold install_zipped_mrpack_files at hres
  simp only [hfm, hp] at hres
  by_cases hg : pack.game ≠ minecraftStr
  · rw [if_pos hg] at hres
    exact absurd (congrArg Prod.snd hres) (by simp)
  · rw [if_neg hg] at hres
    rcases hpp : processPackFiles fetch root pack.files with ⟨tr, err⟩
    rw [hpp] at hres
    cases err with
    | some e => exact absurd (congrArg Prod.snd hres) (by simp)
    | none =>
      cases imc with
      | some e => exact absurd (congrArg Prod.snd hres) (by simp)
      | none =>
        have heff : eff = ⟨tr.fetches, tr.writes ++ processOverrides root zip, [], false⟩ :=
          (congrArg Prod.fst hres).symm
        intro w b hw
        rw [heff] at hw
        simp only at hw
        unfold removeTargets
        rcases List.mem_append.mp hw with h1 | h1
        · exact List.mem_append.mpr
            (Or.inl (processPackFiles_writes_mem fetch root pack.files w b
              (by rw [hpp]; exact h1)))
        · exact List.mem_append.mpr (Or.inr (processOverrides_writes_mem root zip w b h1))

/-- C9 counterexample: a valid pack whose archive also contains a
non-directory entry named exactly "overrides".  Install succeeds and writes
r/a.txt (the "overrides" entry strips to an empty path and is skipped).  But
remove targets the profile root itself for that entry: root exists (it still
holds a.txt), so io::remove_file is called on a directory and errors,
aborting removal before r/a.txt is deleted.  So remove neither deletes every
file install wrote nor succeeds, and a second remove fails identically. -/
theorem c9_counterexample :
    install_zipped_mrpack_files
        (fun s => if s = "M".data then
            Except.ok ⟨minecraftStr, "p".data, []⟩
          else Except.error PackError.schemaError)
        (fun _ _ => Except.error PackError.fetchError) none none none ["r".data]
        [⟨manifestEntryName, "M".data⟩, ⟨"overrides".data, "x".data⟩,
          ⟨"overrides/a.txt".data, "A".data⟩] =
      (⟨[], [(["r".data, "a.txt".data], "A".data)], [], false⟩, none) ∧
    remove_all_related_files
        (fun s => if s = "M".data then
            Except.ok ⟨minecraftStr, "p".data, []⟩
          else Except.error PackError.schemaError)
        ["r".data]
        [⟨manifestEntryName, "M".data⟩, ⟨"overrides".data, "x".data⟩,
          ⟨"overrides/a.txt".data, "A".data⟩]
        [["r".data, "a.txt".data]] =
      ([["r".data, "a.txt".data]], some PackError.ioError, true) := by
  exact ⟨by decide, by decide⟩

/-- C9 amended: provided every removal target is either an existing file or
has no file strictly beneath it in the (duplicate-free, prefix-free)
post-install filesystem — which rules out override entries stripping to an
empty path, such as a file named exactly "overrides" — remove deletes
exactly the target files, hence every file a successful install wrote, without
error, sets the PackInstalling stage flag, and a second remove over the same
pack again succeeds with every target already absent and deletes nothing. -/
theorem c9_remove_inverts_install
    (parse : Str → Except PackError PackFormat)
    (fetch : List Str → Option Str → Except PackError Str)
    (imc : Option PackError) (root : List Str) (zip : List ZipEntry)
    (entry : ZipEntry) (pack : PackFormat) (eff : InstallEffects) (fs0 : List FsPath)
    (hfm : findManifest zip = some entry) (hp : parse entry.content = Except.ok pack)
    (hres : install_zipped_mrpack_files parse fetch none none imc root zip = (eff, none))
    (hnd : fs0.Nodup)
    (hpf : ∀ p ∈ fs0, ∀ q ∈ fs0, List.isPrefixOf p q = true → p = q)
    (hcond : ∀ t ∈ removeTargets root zip pack, t ∈ fs0 ∨ dirLike fs0 t = false) :
    remove_all_related_files parse root zip fs0 =
      (fs0.filter (fun p => decide (¬ p ∈ removeTargets root zip pack)), none, true) ∧
    (∀ w b, (w, b) ∈ eff.writes →
      ¬ w ∈ fs0.filter (fun p => decide (¬ p ∈ removeTargets root zip pack))) ∧
    remove_all_related_files parse root zip
        (fs0.filter (fun p => decide (¬ p ∈ removeTargets root zip pack))) =
      (fs0.filter (fun p => decide (¬ p ∈ removeTargets root zip pack)), none, true) := by
  have hg : pack.game = minecraftStr := by
    by_contra hgn
    unfold install_zipped_mrpack_files at hres
    simp only [hfm, hp] at hres
    rw [if_pos hgn] at hres
    exact absurd (congrArg Prod.snd hres) (by simp)
  have hcond1 : ∀ t ∈ pack.files.map (fun f => joinPath root f.path),
      t ∈ fs0 ∨ dirLike fs0 t = false := by
    intro t ht
    exact hcond t (by unfold removeTargets; exact List.mem_append.mpr (Or.inl ht))
  have hcond2 : ∀ t ∈ zip.filterMap (overrideRemoveTarget root),
      t ∈ fs0 ∨ dirLike fs0 t = false := by
    intro t ht
    exact hcond t (by unfold removeTargets; exact List.mem_append.mpr (Or.inr ht))
  have hcomb : ∀ l : List FsPath,
      (l.filter (fun p => decide (¬ p ∈ pack.files.map (fun f => joinPath root f.path)))).filter
        (fun p => decide (¬ p ∈ zip.filterMap (overrideRemoveTarget root))) =
      l.filter (fun p => decide (¬ p ∈ removeTargets root zip pack)) := by
    intro l
    rw [List.filter_filter]
    apply List.filter_congr
    intro a _
    unfold removeTargets
    by_cases ha1 : a ∈ pack.files.map (fun f => joinPath root f.path) <;>
      by_cases ha2 : a ∈ zip.filterMap (overrideRemoveTarget root) <;>
      simp [ha1, ha2]
  have h1 := removeTargetsFold_clean fs0 hpf
    (pack.files.map (fun f => joinPath root f.path)) fs0 hnd (fun p hp' => hp') hcond1
  have hnd1 : (fs0.filter
      (fun p => decide (¬ p ∈ pack.files.map (fun f => joinPath root f.path)))).Nodup :=
    List.Nodup.filter _ hnd
  have hsub1 : ∀ p ∈ fs0.filter
      (fun p => decide (¬ p ∈ pack.files.map (fun f => joinPath root f.path))), p ∈ fs0 :=
    fun p hp' => List.mem_of_mem_filter hp'
  have h2 := removeTargetsFold_clean fs0 hpf (zip.filterMap (overrideRemoveTarget root))
    (fs0.filter (fun p => decide (¬ p ∈ pack.files.map (fun f => joinPath root f.path))))
    hnd1 hsub1 hcond2
  refine ⟨?_, ?_, ?_⟩
  · unfold remove_all_related_files
    simp only [hfm, hp]
    rw [if_neg (by simp [hg]), h1]
    show (match removeTargetsFold
        (fs0.filter (fun p => decide (¬ p ∈ pack.files.map (fun f => joinPath root f.path))))
        (zip.filterMap (overrideRemoveTarget root)) with
      | (fs2, err2) => (fs2, err2, true)) =
      (fs0.filter (fun p => decide (¬ p ∈ removeTargets root zip pack)), none, true)
    rw [h2]
    show ((fs0.filter
        (fun p => decide (¬ p ∈ pack.files.map (fun f => joinPath root f.path)))).filter
          (fun p => decide (¬ p ∈ zip.filterMap (overrideRemoveTarget root))), none, true) =
      (fs0.filter (fun p => decide (¬ p ∈ removeTargets root zip pack)), none, true)
    rw [hcomb fs0]
  · intro w b hw hmem
    have hwt := install_files_writes_in_targets parse fetch imc root zip entry pack eff
      hfm hp hres w b hw
    have hfm2 := List.mem_filter.mp hmem
    exact (of_decide_eq_true hfm2.2) hwt
  · have hmem1 : ∀ p ∈ fs0.filter (fun p => decide (¬ p ∈ removeTargets root zip pack)),
        ¬ p ∈ removeTargets root zip pack :=
      fun p hp' => of_decide_eq_true (List.mem_filter.mp hp').2
    have hnd' : (fs0.filter (fun p => decide (¬ p ∈ removeTargets root zip pack))).Nodup :=
      List.Nodup.filter _ hnd
    have hsub' : ∀ p ∈ fs0.filter (fun p => decide (¬ p ∈ removeTargets root zip pack)),
        p ∈ fs0 := fun p hp' => List.mem_of_mem_filter hp'
    have h1' := removeTargetsFold_clean fs0 hpf
      (pack.files.map (fun f => joinPath root f.path))
      (fs0.filter (fun p => decide (¬ p ∈ removeTargets root zip pack))) hnd' hsub' hcond1
    have hid1 : (fs0.filter (fun p => decide (¬ p ∈ removeTargets root zip pack))).filter
        (fun p => decide (¬ p ∈ pack.files.map (fun f => joinPath root f.path))) =
        fs0.filter (fun p => decide (¬ p ∈ removeTargets root zip pack)) := by
      apply List.filter_eq_self.mpr
      intro a ha
      refine decide_eq_true ?_
      intro hat
      exact hmem1 a ha (by unfold removeTargets; exact List.mem_append.mpr (Or.inl hat))
    have h2' := removeTargetsFold_clean fs0 hpf (zip.filterMap (overrideRemoveTarget root))
      (fs0.filter (fun p => decide (¬ p ∈ removeTargets root zip pack))) hnd' hsub' hcond2
    have hid2 : (fs0.filter (fun p => decide (¬ p ∈ removeTargets root zip pack))).filter
        (fun p => decide (¬ p ∈ zip.filterMap (overrideRemoveTarget root))) =
        fs0.filter (fun p => decide (¬ p ∈ removeTargets root zip pack)) := by
      apply List.filter_eq_self.mpr
      intro a ha
      refine decide_eq_true ?_
      intro hat
      exact hmem1 a ha (by unfold removeTargets; exact List.mem_append.mpr (Or.inr hat))
    unfold remove_all_related_files
    simp only [hfm, hp]
    rw [if_neg (by simp [hg]), h1', hid1]
    show (match removeTargetsFold
        (fs0.filter (fun p => decide (¬ p ∈ removeTargets root zip pack)))
        (zip.filterMap (overrideRemoveTarget root)) with
      | (fs2, err2) => (fs2, err2, true)) =
      (fs0.filter (fun p => decide (¬ p ∈ removeTargets root zip pack)), none, true)
    rw [h2', hid2]

/-- C9 witness: a pack with one downloaded file and one override; after a
successful install, remove deletes both files without error and a second
remove also succeeds. -/
theorem c9_witness :
    remove_all_related_files
        (fun s => if s = "M".data then
            Except.ok ⟨minecraftStr, "p".data, [⟨"m.jar".data, [], none, ["u".data]⟩]⟩
          else Except.error PackError.schemaError)
        ["r".data]
        [⟨manifestEntryName, "M".data⟩, ⟨"overrides/a.txt".data, "A".data⟩]
        [["r".data, "m.jar".data], ["r".data, "a.txt".data]] =
      ([["r".data, "m.jar".data], ["r".data, "a.txt".data]].filter
          (fun p => decide (¬ p ∈ removeTargets ["r".data]
            [⟨manifestEntryName, "M".data⟩, ⟨"overrides/a.txt".data, "A".data⟩]
            ⟨minecraftStr, "p".data, [⟨"m.jar".data, [], none, ["u".data]⟩]⟩)),
        none, true) ∧
    ¬ ["r".data, "m.jar".data] ∈
      ([["r".data, "m.jar".data], ["r".data, "a.txt".data]].filter
        (fun p => decide (¬ p ∈ removeTargets ["r".data]
          [⟨manifestEntryName, "M".data⟩, ⟨"overrides/a.txt".data, "A".data⟩]
          ⟨minecraftStr, "p".data, [⟨"m.jar".data, [], none, ["u".data]⟩]⟩))) ∧
    remove_all_related_files
        (fun s => if s = "M".data then
            Except.ok ⟨minecraftStr, "p".data, [⟨"m.jar".data, [], none, ["u".data]⟩]⟩
          else Except.error PackError.schemaError)
        ["r".data]
        [⟨manifestEntryName, "M".data⟩, ⟨"overrides/a.txt".data, "A".data⟩]
        ([["r".data, "m.jar".data], ["r".data, "a.txt".data]].filter
          (fun p => decide (¬ p ∈ removeTargets ["r".data]
            [⟨manifestEntryName, "M".data⟩, ⟨"overrides/a.txt".data, "A".data⟩]
            ⟨minecraftStr, "p".data, [⟨"m.jar".data, [], none, ["u".data]⟩]⟩))) =
      ([["r".data, "m.jar".data], ["r".data, "a.txt".data]].filter
          (fun p => decide (¬ p ∈ removeTargets ["r".data]
            [⟨manifestEntryName, "M".data⟩, ⟨"overrides/a.txt".data, "A".data⟩]
            ⟨minecraftStr, "p".data, [⟨"m.jar".data, [], none, ["u".data]⟩]⟩)),
        none, true) := by
  have h := c9_remove_inverts_install
    (fun s => if s = "M".data then
        Except.ok ⟨minecraftStr, "p".data, [⟨"m.jar".data, [], none, ["u".data]⟩]⟩
      else Except.error PackError.schemaError)
    (fun _ _ => Except.ok "B".data) none ["r".data]
    [⟨manifestEntryName, "M".data⟩, ⟨"overrides/a.txt".data, "A".data⟩]
    ⟨manifestEntryName, "M".data⟩
    ⟨minecraftStr, "p".data, [⟨"m.jar".data, [], none, ["u".data]⟩]⟩
    ⟨[⟨["u".data], none⟩], [(["r".data, "m.jar".data], "B".data),
      (["r".data, "a.txt".data], "A".data)], [], false⟩
    [["r".data, "m.jar".data], ["r".data, "a.txt".data]]
    (by decide) (by decide) (by decide) (by decide) (by decide) (by decide)
  exact ⟨h.1, h.2.1 ["r".data, "m.jar".data] "B".data (by decide), h.2.2⟩

end Theseus
